import Mathlib

/-!
Verification development for the hydra-bugbot mutation-injection engine.

The Lean definitions below are a shallow embedding of the JavaScript source:

* `src/core/manifest.js`   — the manifest state machine (`createManifest`,
  `addRealFix`, `addInjectedBug`, `markDiscovered`, `updateStats`,
  `loadManifest`);
* `revert.js`              — the reverter (`revertSingleInjection`,
  `revertAllInjections`);
* `src/core/injector.js`   — relatedness / category-fit / severity scoring,
  `selectInjectionPoints`, and the two-pass selection phase of `injectBugs`;
* `src/utils/regex-parser.js` — the line-based parse/generate pair used by the
  Python and Go adapters.

Modelling conventions: JavaScript objects become structures; `null` /
`undefined` become `Option`; functions that may `throw` return `Except` or
`Option`; the file system is an association list from (resolved) paths to
contents, and every operation that writes to disk also returns the list of
writes it performed; JavaScript numbers used by the scoring code become `ℚ`
(the scoring arithmetic is exact decimal arithmetic on small constants);
JavaScript's builtin regular-expression engine is passed in as an opaque
`String → String → Bool` test oracle, since no property proved here depends
on the outcome of a regex test.
-/

namespace Hydra

/-! ## Manifest data model (src/core/manifest.js) -/

/-- Entry of `manifest.realFixes` (manifest.js `addRealFix`). -/
structure RealFix where
  id : String
  file : String
  line : Nat
  description : String
  diff : String
deriving Repr, DecidableEq

/-- Entry of `manifest.injectedBugs` (manifest.js `addInjectedBug`).
`originalCode` is nullable (`Option`): the reverter checks `== null`. -/
structure InjectedBug where
  id : String
  parentFix : String
  file : String
  line : Nat
  category : String
  severity : Nat
  description : String
  originalCode : Option String
  diff : String
  discoveredBy : Option String
  discoveredAt : Option String
deriving Repr, DecidableEq

/-- The `stats` object recomputed by manifest.js `updateStats`. -/
structure Stats where
  totalRealFixes : Nat
  totalInjected : Nat
  discovered : Nat
  undiscovered : Nat
deriving Repr, DecidableEq

/-- The manifest document (manifest.js `createManifest`). -/
structure Manifest where
  version : String
  created : String
  branch : String
  realFixes : List RealFix
  injectedBugs : List InjectedBug
  stats : Stats
deriving Repr, DecidableEq

/-- Argument object passed to `addRealFix` (fix metadata without an id). -/
structure FixArg where
  file : String
  line : Nat
  description : String
  diff : String
deriving Repr, DecidableEq

/-- Argument object passed to `addInjectedBug`.  It may already carry
`discoveredBy` / `discoveredAt` properties: the JavaScript call site spreads
the argument and then overwrites both with `null`, which is what `addInjectedBug`
below models. -/
structure BugArg where
  parentFix : String
  file : String
  line : Nat
  category : String
  severity : Nat
  description : String
  originalCode : Option String
  diff : String
  discoveredBy : Option String
  discoveredAt : Option String
deriving Repr, DecidableEq

/-- Zero-padded sequential id suffix: JavaScript
`String(n).padStart(3, '0')`. -/
def pad3 (n : Nat) : String :=
  let s := toString n
  if s.length ≥ 3 then s else String.mk (List.replicate (3 - s.length) '0') ++ s

/-- Recalculates all stats from the current arrays and saves the manifest
(manifest.js `updateStats`).  The second component is the list of disk writes
performed (`saveManifest` writes the whole manifest once). -/
def updateStats (m : Manifest) : Manifest × List Manifest :=
  let discovered := (m.injectedBugs.filter (fun b => b.discoveredBy.isSome)).length
  let m2 := { m with stats :=
    { totalRealFixes := m.realFixes.length
      totalInjected := m.injectedBugs.length
      discovered := discovered
      undiscovered := m.injectedBugs.length - discovered } }
  (m2, [m2])

/-- Creates a new empty manifest and writes it to disk (manifest.js
`createManifest`); `now` stands for `new Date().toISOString()`. -/
def createManifest (branch now : String) : Manifest × List Manifest :=
  let m : Manifest :=
    { version := "1.0.0", created := now, branch := branch
      realFixes := [], injectedBugs := []
      stats := { totalRealFixes := 0, totalInjected := 0, discovered := 0, undiscovered := 0 } }
  (m, [m])

/-- Adds a real fix entry with auto-generated sequential id (manifest.js
`addRealFix`), then recomputes stats and saves. -/
def addRealFix (m : Manifest) (fix : FixArg) : Manifest × List Manifest :=
  let id := "fix-" ++ pad3 (m.realFixes.length + 1)
  updateStats { m with realFixes := m.realFixes ++
    [{ id := id, file := fix.file, line := fix.line
       description := fix.description, diff := fix.diff }] }

/-- Adds an injected bug entry (manifest.js `addInjectedBug`).  The JavaScript
object literal is `\x7b id, ...bug, discoveredBy: null, discoveredAt: null \x7d`:
the two `null` defaults come after the spread, so they overwrite any
`discoveredBy` / `discoveredAt` the argument carried. -/
def addInjectedBug (m : Manifest) (bug : BugArg) : Manifest × List Manifest :=
  let id := "hydra-" ++ pad3 (m.injectedBugs.length + 1)
  updateStats { m with injectedBugs := m.injectedBugs ++
    [{ id := id, parentFix := bug.parentFix, file := bug.file, line := bug.line
       category := bug.category, severity := bug.severity
       description := bug.description, originalCode := bug.originalCode
       diff := bug.diff, discoveredBy := none, discoveredAt := none }] }

/-- Updates the first list entry whose id is `bugId` (JavaScript
`Array.prototype.find` returns the first match, which is then mutated). -/
def setDiscoveredFirst (bugId reviewer now : String) : List InjectedBug → List InjectedBug
  | [] => []
  | b :: bs =>
    if b.id == bugId then
      { b with discoveredBy := some reviewer, discoveredAt := some now } :: bs
    else b :: setDiscoveredFirst bugId reviewer now bs

/-- Marks an injected bug as discovered (manifest.js `markDiscovered`);
`now` stands for `new Date().toISOString()`.  Returns the thrown error or
`ok`, the manifest value the caller holds afterwards (the JavaScript function
mutates in place, so on the throw path the caller's manifest is the unchanged
input), and the list of disk writes performed. -/
def markDiscovered (m : Manifest) (bugId reviewer now : String) :
    Except String Unit × Manifest × List Manifest :=
  match m.injectedBugs.find? (fun b => b.id == bugId) with
  | none => (.error ("Bug \"" ++ bugId ++ "\" not found in manifest."), m, [])
  | some _ =>
    let p := updateStats { m with injectedBugs := setDiscoveredFirst bugId reviewer now m.injectedBugs }
    (.ok (), p.1, p.2)

/-- The pure function of the two arrays that `stats` must always equal. -/
def statsOf (realFixes : List RealFix) (injectedBugs : List InjectedBug) : Stats :=
  let discovered := (injectedBugs.filter (fun b => b.discoveredBy.isSome)).length
  { totalRealFixes := realFixes.length
    totalInjected := injectedBugs.length
    discovered := discovered
    undiscovered := injectedBugs.length - discovered }

/-- Invariant: the stats field is the pure function `statsOf` of the arrays. -/
def statsConsistent (m : Manifest) : Prop :=
  m.stats = statsOf m.realFixes m.injectedBugs

/-- C4: after every manifest-mutating operation (`createManifest`,
`addRealFix`, `addInjectedBug`, `markDiscovered`, `updateStats`) the
manifest's `stats` field equals the pure function of the two arrays:
`totalRealFixes = realFixes.length`, `totalInjected = injectedBugs.length`,
`discovered` = number of entries with non-null `discoveredBy`, and
`undiscovered = totalInjected - discovered`. -/
theorem stats_pure_after_every_mutation (branch now : String) (m : Manifest)
    (fix : FixArg) (bug : BugArg) (bugId reviewer ts : String) :
    statsConsistent (createManifest branch now).1 ∧
    statsConsistent (addRealFix m fix).1 ∧
    statsConsistent (addInjectedBug m bug).1 ∧
    (∀ r, (markDiscovered m bugId reviewer ts).1 = .ok r →
      statsConsistent (markDiscovered m bugId reviewer ts).2.1) ∧
    statsConsistent (updateStats m).1 := by
  refine ⟨rfl, rfl, rfl, ?_, rfl⟩
  intro r hr
  unfold markDiscovered at hr ⊢
  cases hfind : m.injectedBugs.find? (fun b => b.id == bugId) with
  | none => rw [hfind] at hr; exact absurd hr (by simp)
  | some b => rfl

/-- Concrete manifest used by the manifest-section witnesses: one injected bug
`hydra-001`, not yet discovered. -/
def manifestW : Manifest :=
  { version := "1.0.0", created := "2026-01-01T00:00:00.000Z", branch := "hydra/session-w"
    realFixes := []
    injectedBugs := [{ id := "hydra-001", parentFix := "fix-001", file := "f.ext", line := 3
                       category := "logic", severity := 2, description := "swapped branches"
                       originalCode := some "line one", diff := "", discoveredBy := none
                       discoveredAt := none }]
    stats := { totalRealFixes := 0, totalInjected := 1, discovered := 0, undiscovered := 1 } }

/-- Witness for C4: the `markDiscovered` conjunct applied at a concrete
manifest where the bug id exists, with every hypothesis discharged by `rfl`. -/
theorem stats_pure_after_every_mutation_witness :
    statsConsistent (markDiscovered manifestW "hydra-001" "alice" "2026-01-02T00:00:00.000Z").2.1 :=
  (stats_pure_after_every_mutation "b" "t" manifestW
    { file := "a.ext", line := 1, description := "d", diff := "" }
    { parentFix := "fix-001", file := "g.ext", line := 2, category := "logic", severity := 2
      description := "d", originalCode := some "s", diff := "", discoveredBy := none
      discoveredAt := none }
    "hydra-001" "alice" "2026-01-02T00:00:00.000Z").2.2.2.1 () rfl

/-- C9: if no entry of `injectedBugs` has the requested id, `markDiscovered`
throws (`Bug "<id>" not found in manifest.`), the manifest is left entirely
unchanged, and nothing is written to disk. -/
theorem markDiscovered_unknown_id_throws_unchanged (m : Manifest)
    (bugId reviewer now : String) (h : ∀ b ∈ m.injectedBugs, b.id ≠ bugId) :
    markDiscovered m bugId reviewer now =
      (.error ("Bug \"" ++ bugId ++ "\" not found in manifest."), m, []) := by
  unfold markDiscovered
  have hf : m.injectedBugs.find? (fun b => b.id == bugId) = none := by
    rw [List.find?_eq_none]
    intro b hb
    simpa using h b hb
  rw [hf]

/-- Witness for C9 at a concrete manifest and a missing bug id. -/
theorem markDiscovered_unknown_id_throws_unchanged_witness :
    markDiscovered manifestW "hydra-999" "alice" "now" =
      (.error ("Bug \"" ++ "hydra-999" ++ "\" not found in manifest."), manifestW, []) :=
  markDiscovered_unknown_id_throws_unchanged manifestW "hydra-999" "alice" "now"
    (by intro b hb; simp [manifestW] at hb; simp [hb])

/-- C10: whatever the `bug` argument carries — including `discoveredBy` /
`discoveredAt` fields — the entry appended by `addInjectedBug` always has
`discoveredBy = null` and `discoveredAt = null`, because the null defaults are
written after the spread of the argument. -/
theorem addInjectedBug_appends_undiscovered (m : Manifest) (bug : BugArg) :
    ∃ e : InjectedBug,
      (addInjectedBug m bug).1.injectedBugs = m.injectedBugs ++ [e] ∧
      e.discoveredBy = none ∧ e.discoveredAt = none ∧
      e.id = "hydra-" ++ pad3 (m.injectedBugs.length + 1) ∧
      e.file = bug.file ∧ e.category = bug.category ∧
      e.originalCode = bug.originalCode :=
  ⟨{ id := "hydra-" ++ pad3 (m.injectedBugs.length + 1), parentFix := bug.parentFix
     file := bug.file, line := bug.line, category := bug.category
     severity := bug.severity, description := bug.description
     originalCode := bug.originalCode, diff := bug.diff
     discoveredBy := none, discoveredAt := none },
   rfl, rfl, rfl, rfl, rfl, rfl, rfl⟩

/-! ## File system model and the reverter (revert.js) -/

/-- File system: association list from resolved paths to file contents.
`revert.js` resolves every manifest-relative path against one fixed
`process.cwd()`, so resolution is injective and the resolved path is used as
the key directly. -/
abbrev FS := List (String × String)

/-- Reads a file (`fs.readFileSync` / lookup); `none` when the path is absent. -/
def fsRead (fs : FS) (p : String) : Option String :=
  (fs.find? (fun e => e.1 == p)).map (fun e => e.2)

/-- Models `fs.existsSync`. -/
def fsExistsSync (fs : FS) (p : String) : Bool :=
  (fsRead fs p).isSome

/-- Models `fs.writeFileSync`: replaces the content at the path, creating the
entry when absent.  Writes always succeed in this model, so the reverter's
catch around `writeFileSync` (a collected per-bug error in the source) has no
failing case here. -/
def fsWrite : FS → String → String → FS
  | [], p, c => [(p, c)]
  | e :: es, p, c => if e.1 == p then (p, c) :: es else e :: fsWrite es p c

/-- Result object of `revertSingleInjection`. -/
structure RevertResult where
  success : Bool
  error : Option String
deriving Repr, DecidableEq

/-- Reverts a single injected bug by restoring the full original file content
from the `originalCode` field (revert.js `revertSingleInjection`): find the
bug by id, fail if it is missing or has no stored snapshot or its file does
not exist, otherwise write `originalCode` over the file. -/
def revertSingleInjection (m : Manifest) (bugId : String) (fs : FS) : RevertResult × FS :=
  match m.injectedBugs.find? (fun b => b.id == bugId) with
  | none => ({ success := false, error := some ("Bug \"" ++ bugId ++ "\" not found in manifest.") }, fs)
  | some bug =>
    match bug.originalCode with
    | none =>
      ({ success := false
         error := some ("Bug \"" ++ bugId ++ "\" has no originalCode stored — cannot revert.") }, fs)
    | some code =>
      if fsExistsSync fs bug.file then
        ({ success := true, error := none }, fsWrite fs bug.file code)
      else
        ({ success := false, error := some ("File not found: " ++ bug.file) }, fs)

/-- Summary object returned by `revertAllInjections`. -/
structure RevertSummary where
  reverted : Nat
  errors : List String
deriving Repr, DecidableEq

/-- The `for (const bug of bugsInReverseOrder)` loop body of
`revertAllInjections`: revert each bug by id, counting successes and
collecting error strings. -/
def revertLoop (m : Manifest) : List InjectedBug → RevertSummary → FS → RevertSummary × FS
  | [], s, fs => (s, fs)
  | bug :: rest, s, fs =>
    let r := revertSingleInjection m bug.id fs
    let s2 :=
      if r.1.success then { s with reverted := s.reverted + 1 }
      else { s with errors := s.errors ++ ["[" ++ bug.id ++ "] " ++ r.1.error.getD ""] }
    revertLoop m rest s2 r.2

/-- Reverts all injected bugs, processing them in reverse insertion order
(revert.js `revertAllInjections` iterates over
`[...manifest.injectedBugs].reverse()`). -/
def revertAllInjections (m : Manifest) (fs : FS) : RevertSummary × FS :=
  revertLoop m m.injectedBugs.reverse { reverted := 0, errors := [] } fs

theorem fsRead_fsWrite_self (fs : FS) (p c : String) :
    fsRead (fsWrite fs p c) p = some c := by
  induction fs with
  | nil => simp [fsWrite, fsRead]
  | cons e es ih =>
    by_cases h : e.1 = p
    · simp [fsWrite, h, fsRead, List.find?]
    · have hb : (e.1 == p) = false := by simpa using h
      simpa [fsWrite, hb, fsRead, List.find?] using ih

theorem find?_eq_self_of_nodup_ids (l : List InjectedBug)
    (hids : (l.map (fun b => b.id)).Nodup) (b : InjectedBug) (hb : b ∈ l) :
    l.find? (fun x => x.id == b.id) = some b := by
  induction l with
  | nil => simp at hb
  | cons a l ih =>
    rw [List.map_cons, List.nodup_cons] at hids
    rcases List.mem_cons.mp hb with rfl | hbl
    · simp [List.find?]
    · have hne : (a.id == b.id) = false := by
        rw [beq_eq_false_iff_ne]
        intro h
        exact hids.1 (h ▸ List.mem_map_of_mem (fun x => x.id) hbl)
      simp only [List.find?, hne]
      exact ih hids.2 hbl

/-- Key lemma for C1: running the revert loop over `l ++ [b]` — where every
bug (including `b`) targets file `f`, has a stored snapshot, and is found by
its own id in the manifest — leaves `f` holding exactly `b`'s snapshot, the
snapshot of the bug processed last. -/
theorem revertLoop_append_singleton (m : Manifest) (f : String) :
    ∀ (l : List InjectedBug) (b : InjectedBug) (s : RevertSummary) (fs : FS),
    (∀ x ∈ l ++ [b], x.file = f ∧ x.originalCode.isSome ∧
      m.injectedBugs.find? (fun y => y.id == x.id) = some x) →
    fsExistsSync fs f = true →
    fsRead (revertLoop m (l ++ [b]) s fs).2 f = b.originalCode := by
  intro l
  induction l with
  | nil =>
    intro b s fs h hex
    obtain ⟨hf, horig, hfind⟩ := h b (by simp)
    obtain ⟨code, hcode⟩ := Option.isSome_iff_exists.mp horig
    simp only [List.nil_append, revertLoop, revertSingleInjection, hfind, hcode, hf, hex,
      if_true]
    exact fsRead_fsWrite_self fs f code
  | cons x l ih =>
    intro b s fs h hex
    obtain ⟨hf, horig, hfind⟩ := h x (by simp)
    obtain ⟨code, hcode⟩ := Option.isSome_iff_exists.mp horig
    simp only [List.cons_append, revertLoop, revertSingleInjection, hfind, hcode, hf, hex,
      if_true]
    refine ih b _ _ (fun y hy => h y (by simp at hy ⊢; tauto)) ?_
    simp [fsExistsSync, fsRead_fsWrite_self]

/-- C1: for a manifest whose `injectedBugs` records a serial chain of
injections into one file `f` (first bug `b0`, then `rest`, all targeting `f`,
each with a stored full-file snapshot and distinct sequential ids),
`revertAllInjections` processes the bugs in reverse insertion order, and once
it completes the file holds exactly `b0.originalCode` — the content captured
strictly before the first injection, not any intermediate state. -/
theorem revertAllInjections_restores_first_snapshot (m : Manifest) (fs : FS)
    (b0 : InjectedBug) (rest : List InjectedBug) (f : String)
    (hbugs : m.injectedBugs = b0 :: rest)
    (hfile : ∀ b ∈ m.injectedBugs, b.file = f)
    (horig : ∀ b ∈ m.injectedBugs, b.originalCode.isSome)
    (hids : (m.injectedBugs.map (fun b => b.id)).Nodup)
    (hex : fsExistsSync fs f = true) :
    fsRead (revertAllInjections m fs).2 f = b0.originalCode := by
  have hrev : m.injectedBugs.reverse = rest.reverse ++ [b0] := by
    rw [hbugs, List.reverse_cons]
  unfold revertAllInjections
  rw [hrev]
  refine revertLoop_append_singleton m f rest.reverse b0 _ fs ?_ hex
  intro x hx
  have hxm : x ∈ m.injectedBugs := by
    rw [hbugs]
    rcases List.mem_append.mp hx with hxl | hxr
    · exact List.mem_cons_of_mem _ (List.mem_reverse.mp hxl)
    · simp at hxr; simp [hxr]
  exact ⟨hfile x hxm, horig x hxm, find?_eq_self_of_nodup_ids m.injectedBugs hids x hxm⟩

/-- Concrete two-bug serial chain for the C1 witness: `hydra-001` was injected
first (snapshot "v0", the pre-chain content), `hydra-002` second (snapshot
"v1", the intermediate content); the file currently holds "v2". -/
def bugW1 : InjectedBug :=
  { id := "hydra-001", parentFix := "fix-001", file := "f.ext", line := 1
    category := "logic", severity := 2, description := "first injection"
    originalCode := some "v0", diff := "", discoveredBy := none, discoveredAt := none }

/-- Second bug of the C1 witness chain. -/
def bugW2 : InjectedBug :=
  { id := "hydra-002", parentFix := "fix-001", file := "f.ext", line := 2
    category := "logic", severity := 2, description := "second injection"
    originalCode := some "v1", diff := "", discoveredBy := none, discoveredAt := none }

/-- Manifest holding the two-bug chain of the C1 witness. -/
def manifestChainW : Manifest :=
  { version := "1.0.0", created := "2026-01-01T00:00:00.000Z", branch := "hydra/session-w"
    realFixes := [], injectedBugs := [bugW1, bugW2]
    stats := { totalRealFixes := 0, totalInjected := 2, discovered := 0, undiscovered := 2 } }

/-- Witness for C1: reverting the concrete two-bug chain restores the file to
"v0", the state strictly before the first injection. -/
theorem revertAllInjections_restores_first_snapshot_witness :
    fsRead (revertAllInjections manifestChainW [("f.ext", "v2")]).2 "f.ext" = some "v0" :=
  revertAllInjections_restores_first_snapshot manifestChainW [("f.ext", "v2")] bugW1 [bugW2]
    "f.ext" rfl
    (by intro b hb; simp [manifestChainW] at hb; rcases hb with rfl | rfl <;> rfl)
    (by intro b hb; simp [manifestChainW] at hb; rcases hb with rfl | rfl <;> rfl)
    (by simp [manifestChainW, bugW1, bugW2])
    rfl

/-! ## JSON parsing model, loadManifest and the status query
(src/core/manifest.js `loadManifest`, src/cli.js `status` action) -/

/-- JSON value.  Numbers keep their source lexeme: only parse
success/failure and JavaScript truthiness matter to the properties proved
here. -/
inductive Json where
  | null
  | bool (b : Bool)
  | num (lexeme : String)
  | str (s : String)
  | arr (items : List Json)
  | obj (fields : List (String × Json))
deriving Repr

/-- Opening curly bracket character. -/
def lbrace : Char := Char.ofNat 123

/-- Closing curly bracket character. -/
def rbrace : Char := Char.ofNat 125

/-- JSON insignificant whitespace (space, tab, line feed, carriage
return). -/
def isJsonWs (c : Char) : Bool :=
  match c.toNat with
  | 32 => true
  | 9 => true
  | 10 => true
  | 13 => true
  | _ => false

/-- Drops leading JSON whitespace. -/
def skipWs (cs : List Char) : List Char :=
  cs.dropWhile isJsonWs

/-- Hexadecimal digit test for the four digits of a \u escape, by code
point: 0–9, a–f, A–F. -/
def isHexDigit (c : Char) : Bool :=
  let n := c.toNat
  (decide (48 ≤ n) && decide (n ≤ 57))
    || (decide (97 ≤ n) && decide (n ≤ 102))
    || (decide (65 ≤ n) && decide (n ≤ 70))

/-- Value of a hexadecimal digit, by code point. -/
def hexVal (c : Char) : Nat :=
  let n := c.toNat
  if n ≤ 57 then n - 48 else if 97 ≤ n then n - 87 else n - 55

/-- Single-character JSON string escapes, by code point: quote, backslash
and slash stand for themselves; `b`, `f`, `n`, `r`, `t` stand for the usual
control characters. -/
def escChar (c : Char) : Option Char :=
  match c.toNat with
  | 34 => some c
  | 92 => some c
  | 47 => some c
  | 98 => some (Char.ofNat 8)
  | 102 => some (Char.ofNat 12)
  | 110 => some (Char.ofNat 10)
  | 114 => some (Char.ofNat 13)
  | 116 => some (Char.ofNat 9)
  | _ => none

/-- Parses the body of a JSON string after the opening quote. -/
def parseJsonString : Nat → List Char → String → Option (String × List Char)
  | 0, _, _ => none
  | fuel+1, cs, acc =>
    match cs with
    | [] => none
    | '"' :: rest => some (acc, rest)
    | '\\' :: e :: rest =>
      if e == 'u' then
        match rest with
        | a :: b :: c :: d :: rest2 =>
          if isHexDigit a && isHexDigit b && isHexDigit c && isHexDigit d then
            parseJsonString fuel rest2
              (acc.push (Char.ofNat (((hexVal a * 16 + hexVal b) * 16 + hexVal c) * 16 + hexVal d)))
          else none
        | _ => none
      else
        match escChar e with
        | some ch => parseJsonString fuel rest (acc.push ch)
        | none => none
    | c :: rest => if c.toNat < 32 then none else parseJsonString fuel rest (acc.push c)

/-- Splits a leading run of decimal digits. -/
def parseDigits (cs : List Char) : List Char × List Char :=
  (cs.takeWhile (fun c => c.isDigit), cs.dropWhile (fun c => c.isDigit))

/-- Integer part of a JSON number: `0`, or a nonzero digit followed by
digits. -/
def parseIntPart : List Char → Option (List Char × List Char)
  | [] => none
  | c :: rest =>
    if c == '0' then some ([c], rest)
    else if c.isDigit then
      let p := parseDigits rest
      some (c :: p.1, p.2)
    else none

/-- Optional fraction part of a JSON number. -/
def parseFracPart : List Char → Option (List Char × List Char)
  | '.' :: rest =>
    let p := parseDigits rest
    if p.1.isEmpty then none else some ( '.' :: p.1, p.2)
  | cs => some ([], cs)

/-- Optional exponent part of a JSON number. -/
def parseExpPart : List Char → Option (List Char × List Char)
  | [] => some ([], [])
  | c :: rest =>
    if c == 'e' || c == 'E' then
      match rest with
      | [] => none
      | s :: rest2 =>
        if s == '+' || s == '-' then
          let p := parseDigits rest2
          if p.1.isEmpty then none else some (c :: s :: p.1, p.2)
        else
          let p := parseDigits rest
          if p.1.isEmpty then none else some (c :: p.1, p.2)
    else some ([], c :: rest)

/-- Parses a JSON number, keeping its lexeme. -/
def parseNumber (cs : List Char) : Option (Json × List Char) :=
  let signed := fun (body sign : List Char) =>
    match parseIntPart body with
    | none => none
    | some (ip, r1) =>
      match parseFracPart r1 with
      | none => none
      | some (fp, r2) =>
        match parseExpPart r2 with
        | none => none
        | some (ep, r3) => some (Json.num (String.mk (sign ++ ip ++ fp ++ ep)), r3)
  match cs with
  | '-' :: rest => signed rest [ '-' ]
  | _ => signed cs []

mutual

/-- Parses one JSON value at the head of the input. -/
def parseJsonVal : Nat → List Char → Option (Json × List Char)
  | 0, _ => none
  | fuel+1, cs =>
    match cs with
    | [] => none
    | 'n' :: 'u' :: 'l' :: 'l' :: rest => some (Json.null, rest)
    | 't' :: 'r' :: 'u' :: 'e' :: rest => some (Json.bool true, rest)
    | 'f' :: 'a' :: 'l' :: 's' :: 'e' :: rest => some (Json.bool false, rest)
    | c :: rest =>
      if c == '"' then
        match parseJsonString fuel rest "" with
        | some (s, r) => some (Json.str s, r)
        | none => none
      else if c == '[' then
        match skipWs rest with
        | ']' :: r => some (Json.arr [], r)
        | r1 => parseJsonElems fuel r1 []
      else if c == lbrace then
        match skipWs rest with
        | [] => none
        | d :: r => if d == rbrace then some (Json.obj [], r) else parseJsonFields fuel (d :: r) []
      else parseNumber (c :: rest)

/-- Parses the comma-separated elements of a JSON array. -/
def parseJsonElems : Nat → List Char → List Json → Option (Json × List Char)
  | 0, _, _ => none
  | fuel+1, cs, acc =>
    match parseJsonVal fuel cs with
    | none => none
    | some (v, r) =>
      match skipWs r with
      | ',' :: r2 => parseJsonElems fuel (skipWs r2) (acc ++ [v])
      | ']' :: r2 => some (Json.arr (acc ++ [v]), r2)
      | _ => none

/-- Parses the comma-separated key/value fields of a JSON object. -/
def parseJsonFields : Nat → List Char → List (String × Json) → Option (Json × List Char)
  | 0, _, _ => none
  | fuel+1, cs, acc =>
    match cs with
    | '"' :: rest =>
      match parseJsonString fuel rest "" with
      | none => none
      | some (k, r) =>
        match skipWs r with
        | ':' :: r2 =>
          match parseJsonVal fuel (skipWs r2) with
          | none => none
          | some (v, r3) =>
            match skipWs r3 with
            | [] => none
            | d :: r4 =>
              if d == ',' then parseJsonFields fuel (skipWs r4) (acc ++ [(k, v)])
              else if d == rbrace then some (Json.obj (acc ++ [(k, v)]), r4)
              else none
        | _ => none
    | _ => none

end

/-- Models the JavaScript builtin `JSON.parse`: parses one JSON document
surrounded by optional whitespace; `none` models the thrown `SyntaxError`. -/
def jsonParse (s : String) : Option Json :=
  match parseJsonVal (2 * s.length + 2) (skipWs s.toList) with
  | some (v, rest) =>
    match skipWs rest with
    | [] => some v
    | _ => none
  | none => none

/-- Reads and parses the manifest file (manifest.js `loadManifest`).  The
argument is the manifest file's on-disk state, `none` when the file does not
exist.  When `fs.existsSync` is false the function returns `null`; otherwise
it returns `JSON.parse(raw)` — there is no try/catch, so a parse failure is a
thrown `SyntaxError` that escapes to the caller. -/
def loadManifest (file : Option String) : Except String (Option Json) :=
  match file with
  | none => .ok none
  | some raw =>
    match jsonParse raw with
    | some j => .ok (some j)
    | none => .error "SyntaxError: JSON.parse failed"

/-- Whether a JSON number lexeme denotes zero: its mantissa (the part before
any exponent marker) contains no nonzero digit. -/
def jsonNumIsZero (lexeme : String) : Bool :=
  (lexeme.toList.takeWhile (fun c => !(c == 'e' || c == 'E'))).all
    (fun c => !(decide ('1' ≤ c) && decide (c ≤ '9')))

/-- JavaScript truthiness of a parsed JSON value (`if (!manifest)`). -/
def jsTruthy : Json → Bool
  | .null => false
  | .bool b => b
  | .num lexeme => !(jsonNumIsZero lexeme)
  | .str s => !(s == "")
  | .arr _ => true
  | .obj _ => true

/-- Models the `status` command's session check (src/cli.js `status` action):
`const manifest = loadManifest();` runs outside any try/catch, so an
exception thrown by `loadManifest` propagates out of the action; a falsy
manifest prints `No active hydra session.`. -/
def statusQuery (file : Option String) : Except String String :=
  match loadManifest file with
  | .error e => .error e
  | .ok none => .ok "No active hydra session."
  | .ok (some j) =>
    if jsTruthy j then .ok "Session Status" else .ok "No active hydra session."

/-- Counterexample for C5: a manifest file that exists but is not parseable
as JSON (content = a lone opening curly bracket) makes `loadManifest` throw,
and the exception propagates out of the `status` query instead of being
treated as "no active session". -/
theorem loadManifest_corrupt_throws_counterexample :
    loadManifest (some "\x7b") = .error "SyntaxError: JSON.parse failed" ∧
    statusQuery (some "\x7b") = .error "SyntaxError: JSON.parse failed" :=
  ⟨rfl, rfl⟩

/-- C5 (amended): an absent manifest file is treated as "no active session"
(`loadManifest` yields `null` and the status query reports no active session
without throwing), but a present manifest file that is not parseable as JSON
makes `JSON.parse` throw inside `loadManifest` and the exception propagates
to the session-dependent caller. -/
theorem loadManifest_absent_null_corrupt_throws (raw : String) :
    loadManifest none = .ok none ∧
    statusQuery none = .ok "No active hydra session." ∧
    (jsonParse raw = none →
      loadManifest (some raw) = .error "SyntaxError: JSON.parse failed") ∧
    (jsonParse raw = none →
      statusQuery (some raw) = .error "SyntaxError: JSON.parse failed") := by
  refine ⟨rfl, rfl, ?_, ?_⟩ <;> intro h <;> simp [loadManifest, statusQuery, h]

/-- Witness for the amended C5 at the concrete corrupt content. -/
theorem loadManifest_absent_null_corrupt_throws_witness :
    jsonParse "\x7b" = none ∧
    loadManifest (some "\x7b") = .error "SyntaxError: JSON.parse failed" :=
  ⟨rfl, (loadManifest_absent_null_corrupt_throws "\x7b").2.2.1 rfl⟩

/-! ## Path helpers: models of the node:path posix functions used by
injector.js (`path.dirname`, `path.basename`, `path.extname`), adequate for
the slash-separated paths without trailing separators that the injector
produces. -/

/-- Splits a character list on a separator, in the style of JavaScript
`String.prototype.split` (an empty input yields one empty part; a trailing
separator yields a trailing empty part). -/
def splitOnChar (sep : Char) : List Char → List (List Char)
  | [] => [[]]
  | c :: cs =>
    match splitOnChar sep cs with
    | [] => [[]]
    | l :: ls => if c == sep then [] :: l :: ls else (c :: l) :: ls

/-- Joins character lists with a separator character. -/
def joinChar (sep : Char) : List (List Char) → List Char
  | [] => []
  | [l] => l
  | l :: ls => l ++ sep :: joinChar sep ls

/-- Models `path.dirname`: everything before the last separator; `.` when
there is no separator; `/` for an entry directly under the root. -/
def dirname (p : String) : String :=
  let parts := splitOnChar '/' p.toList
  if parts.length ≤ 1 then "."
  else if parts.dropLast = [[]] then "/"
  else String.mk (joinChar '/' parts.dropLast)

/-- Models `path.basename` without a suffix argument: the last path
component, as a character list. -/
def basenameChars (p : String) : List Char :=
  ((splitOnChar '/' p.toList).getLast?).getD []

/-- Suffix of `cs` starting at its last dot, when there is one. -/
def extTail : List Char → Option (List Char)
  | [] => none
  | c :: cs =>
    match extTail cs with
    | some t => some t
    | none => if c == '.' then some (c :: cs) else none

/-- Models `path.extname` as a character list: the extension of the
basename; a dot in leading position alone does not make an extension. -/
def extChars (p : String) : List Char :=
  match basenameChars p with
  | [] => []
  | _ :: rest => (extTail rest).getD []

/-- Models `path.extname`. -/
def extname (p : String) : String :=
  String.mk (extChars p)

/-- Models `path.basename(p, path.extname(p))`: the basename with its
extension removed. -/
def basenameStripExt (p : String) : String :=
  let b := basenameChars p
  String.mk (b.take (b.length - (extChars p).length))

/-- Models `String.prototype.toLowerCase` (ASCII case folding, which covers
the path and import text the injector lowercases). -/
def toLowerStr (s : String) : String :=
  String.mk (s.toList.map Char.toLower)

/-- Models `String.prototype.endsWith`. -/
def endsWithStr (s suffix : String) : Bool :=
  List.isSuffixOf suffix.toList s.toList

/-- Models `specifier.startsWith('.')`. -/
def startsWithDot (s : String) : Bool :=
  match s.toList with
  | '.' :: _ => true
  | _ => false

/-! ## Candidate scoring (injector.js `relatednessScore`,
`categoryFitScore`, `severityMatchScore`).  JavaScript numbers become `ℚ`:
the scoring arithmetic uses only small decimal constants. -/

/-- Directory-proximity part of `relatednessScore`: same directory adds 0.4,
same parent directory adds 0.2. -/
def dirProximityScore (candidateFile fixedFile : String) : ℚ :=
  if dirname candidateFile = dirname fixedFile then 0.4
  else if dirname (dirname candidateFile) = dirname (dirname fixedFile) then 0.2
  else 0

/-- Import-stem part of `relatednessScore`: 0.4 when some candidate import
specifier ends with the fixed file's lower-cased basename stem. -/
def importStemScore (candidateImports : List String) (fixedFile : String) : ℚ :=
  let fixedStem := toLowerStr (basenameStripExt fixedFile)
  if candidateImports.any (fun imp => endsWithStr (toLowerStr imp) fixedStem) then 0.4 else 0

/-- Shared-external-packages part of `relatednessScore`:
`min(sharedExternal.length * 0.05, 0.2)` over the imports that do not start
with a dot. -/
def sharedExternalScore (candidateImports fixedImports : List String) : ℚ :=
  let fixedExternal := fixedImports.filter (fun i => !(startsWithDot i))
  let sharedExternal := candidateImports.filter
    (fun i => !(startsWithDot i) && fixedExternal.contains i)
  min ((sharedExternal.length : ℚ) * 0.05) 0.2

/-- Returns a 0–1 score for how related `candidateFile` is to `fixedFile`
(injector.js `relatednessScore`): the accumulated directory-proximity,
import-stem and shared-external contributions, capped at 1. -/
def relatednessScore (candidateFile fixedFile : String)
    (candidateImports fixedImports : List String) : ℚ :=
  min (dirProximityScore candidateFile fixedFile
    + importStemScore candidateImports fixedFile
    + sharedExternalScore candidateImports fixedImports) 1

/-- The fix context string scanned by the category keyword tests:
`` `${fix.file} ${fix.description}`.toLowerCase() ``. -/
def fixContext (fixFile fixDescription : String) : String :=
  toLowerStr (fixFile ++ " " ++ fixDescription)

/-- Returns a 0–1 score for how well a template's category fits the fix
context (the `switch (template.category)` of injector.js `categoryFitScore`).
`re pat ctx` stands for the JavaScript regular-expression test
`/pat/.test(ctx)`; it is passed in as an opaque oracle because every property
proved below holds for either outcome of every test. -/
def categoryFitScore (re : String → String → Bool) (templateCategory : String)
    (fixFile fixDescription language : String) : ℚ :=
  match templateCategory with
  | "react" =>
    if language = "javascript" ∧
        re "react|hook|component|jsx|tsx|render|state" (fixContext fixFile fixDescription)
    then 0.8 else 0.1
  | "async" =>
    if re "async|await|promise|fetch|api|request|callback|asyncio|goroutine"
        (fixContext fixFile fixDescription)
    then 0.8 else 0.3
  | "logic" => 0.5
  | "null-safety" =>
    if re "null|undefined|optional|safe|none|nil" (fixContext fixFile fixDescription)
    then 0.8 else 0.4
  | "error-handling" =>
    if re "error|err|exception|panic|recover" (fixContext fixFile fixDescription)
    then 0.8 else 0.3
  | "concurrency" =>
    if re "goroutine|channel|mutex|lock|concurrent|parallel" (fixContext fixFile fixDescription)
    then 0.8 else 0.2
  | "resource" =>
    if re "file|open|close|connection|socket|defer|with\\s" (fixContext fixFile fixDescription)
    then 0.8 else 0.3
  | "indentation" =>
    if language = "python" then 0.6 else 0.0
  | "correctness" => 0.5
  | "security" =>
    if re "auth|login|session|csrf|cors|token|validate|sanitize|path"
        (fixContext fixFile fixDescription)
    then 0.9 else 0.2
  | "database" =>
    if re "database|db|sql|query|pool|connection|client|pg|mysql|mongo"
        (fixContext fixFile fixDescription)
    then 0.9 else 0.2
  | "event-loop" =>
    if re "stream|pipe|socket|event|emitter" (fixContext fixFile fixDescription)
    then 0.8 else 0.2
  | _ => 0.3

/-- The static category→severity map `CATEGORY_SEVERITY` of injector.js;
unknown categories default to 3 (`?? 3`). -/
def categorySeverity (category : String) : Nat :=
  if category = "async" then 4
  else if category = "react" then 3
  else if category = "null-safety" then 3
  else if category = "logic" then 2
  else if category = "error-handling" then 3
  else if category = "concurrency" then 4
  else if category = "resource" then 3
  else if category = "indentation" then 2
  else if category = "correctness" then 3
  else if category = "security" then 5
  else if category = "database" then 4
  else if category = "event-loop" then 3
  else 3

/-- Returns a 0–1 score reflecting how close the template's implicit severity
is to the requested severity (injector.js `severityMatchScore`):
`max(0, 1 - distance * 0.25)`. -/
def severityMatchScore (category : String) (requestedSeverity : ℚ) : ℚ :=
  max 0 (1 - |(categorySeverity category : ℚ) - requestedSeverity| * 0.25)

/-! ## Selection machinery (injector.js `selectInjectionPoints` and the
two-pass selection phase of `injectBugs`).  The parsed representation and the
injection-point payload are opaque type parameters: the JavaScript engine
never inspects either during scoring or selection. -/

/-- Bug template as seen by the selector: its category and its (pure)
`findInjectionPoints`; a `none` result models a thrown exception. -/
structure STemplate (π ι : Type) where
  category : String
  findInjectionPoints : π → String → Option (List ι)

/-- Language adapter as seen by the selector: `parseFile` returns `none` when
it throws; `extractImports` is best-effort and total. -/
structure SAdapter (π : Type) where
  name : String
  parseFile : String → String → Option π
  extractImports : π → List String

/-- Fix event: the anchor of relatedness scoring. -/
structure FixEvent where
  file : String
  description : String

/-- Scored injection candidate pushed by `selectInjectionPoints`. -/
structure Candidate (π ι : Type) where
  file : String
  template : STemplate π ι
  injectionPoint : ι
  score : ℚ
  parsed : π
  originalCode : String

/-- Imports of the fixed file (the try block at the top of
`selectInjectionPoints`): empty when `fix.file` is falsy, unreadable, or
fails to parse. -/
def fixedImportsOf {π : Type} (fs : FS) (fix : FixEvent) (adapter : SAdapter π) : List String :=
  if fix.file = "" then []
  else
    match fsRead fs fix.file with
    | none => []
    | some src =>
      match adapter.parseFile src fix.file with
      | none => []
      | some parsed => adapter.extractImports parsed

/-- The candidate-collection loops of `selectInjectionPoints`, in discovery
order: for each readable, parseable file, for each template whose
`findInjectionPoints` neither throws nor returns empty, push one scored
candidate per injection point. -/
def candidatesOf {π ι : Type} (fs : FS) (files : List String) (fix : FixEvent)
    (options : Option ℚ) (templates : List (STemplate π ι)) (adapter : SAdapter π)
    (re : String → String → Bool) : List (Candidate π ι) :=
  let severity := options.getD 3
  let language := adapter.name
  let fixedImports := fixedImportsOf fs fix adapter
  files.flatMap (fun filePath =>
    match fsRead fs filePath with
    | none => []
    | some src =>
      match adapter.parseFile src filePath with
      | none => []
      | some parsed =>
        let candidateImports := adapter.extractImports parsed
        let relScore := relatednessScore filePath fix.file candidateImports fixedImports
        templates.flatMap (fun template =>
          match template.findInjectionPoints parsed filePath with
          | none => []
          | some points =>
            let catScore := categoryFitScore re template.category fix.file fix.description language
            let sevScore := severityMatchScore template.category severity
            points.map (fun injectionPoint =>
              { file := filePath, template := template, injectionPoint := injectionPoint
                score := relScore * 0.4 + catScore * 0.35 + sevScore * 0.25
                parsed := parsed, originalCode := src })))

/-- Stable insertion of a candidate into a list sorted descending by score:
skips every element with a strictly greater score, so an inserted element
lands before later equal-scored ones. -/
def insertByScore {π ι : Type} (c : Candidate π ι) : List (Candidate π ι) → List (Candidate π ι)
  | [] => [c]
  | d :: ds => if c.score < d.score then d :: insertByScore c ds else c :: d :: ds

/-- Stable descending sort by score.  Models
`candidates.sort((a, b) => b.score - a.score)`: ECMA-262 requires
`Array.prototype.sort` to be stable, and this insertion sort computes the
unique stable descending-by-score permutation. -/
def sortByScoreDesc {π ι : Type} : List (Candidate π ι) → List (Candidate π ι)
  | [] => []
  | c :: cs => insertByScore c (sortByScoreDesc cs)

/-- Scored and ranked candidate list (injector.js `selectInjectionPoints`). -/
def selectInjectionPoints {π ι : Type} (fs : FS) (files : List String) (fix : FixEvent)
    (options : Option ℚ) (templates : List (STemplate π ι)) (adapter : SAdapter π)
    (re : String → String → Bool) : List (Candidate π ι) :=
  sortByScoreDesc (candidatesOf fs files fix options templates adapter re)

/-- First selection pass of `injectBugs` (prefer distinct files): walk the
ranked list, stop at `ratio` selected, skip candidates whose file is already
used.  Candidates are paired with their index in the ranked list, which
models JavaScript object identity; the `usedFiles` set is exactly the set of
files of the already-selected candidates. -/
def diversityPass {π ι : Type} (ratio : Nat) :
    List (Nat × Candidate π ι) → List (Nat × Candidate π ι) → List (Nat × Candidate π ι)
  | [], acc => acc
  | ic :: rest, acc =>
    if ratio ≤ acc.length then acc
    else if acc.any (fun jc => jc.2.file == ic.2.file) then diversityPass ratio rest acc
    else diversityPass ratio rest (acc ++ [ic])

/-- Second selection pass of `injectBugs` (fill remaining slots from any
file): walk the ranked list again, skipping candidates already selected
(`selected.includes(candidate)` compares object identity, modelled by the
ranked-list index). -/
def fillPass {π ι : Type} (ratio : Nat) :
    List (Nat × Candidate π ι) → List (Nat × Candidate π ι) → List (Nat × Candidate π ι)
  | [], sel => sel
  | ic :: rest, sel =>
    if ratio ≤ sel.length then sel
    else if sel.any (fun jc => jc.1 == ic.1) then fillPass ratio rest sel
    else fillPass ratio rest (sel ++ [ic])

/-- The selection phase of `injectBugs` (injector.js): diversity pass, then
fill pass over the ranked candidate list. -/
def selectTopCandidates {π ι : Type} (ranked : List (Candidate π ι)) (ratio : Nat) :
    List (Candidate π ι) :=
  let indexed := ranked.enum
  (fillPass ratio indexed (diversityPass ratio indexed [])).map (fun ic => ic.2)

/-! ## Score bounds and the composite-score formula -/

theorem dirProximityScore_nonneg (a b : String) : 0 ≤ dirProximityScore a b := by
  simp only [dirProximityScore]
  split_ifs <;> norm_num

theorem importStemScore_nonneg (ci : List String) (f : String) : 0 ≤ importStemScore ci f := by
  simp only [importStemScore]
  split_ifs <;> norm_num

theorem sharedExternalScore_nonneg (ci fi : List String) : 0 ≤ sharedExternalScore ci fi := by
  simp only [sharedExternalScore]
  exact le_min (mul_nonneg (Nat.cast_nonneg _) (by norm_num)) (by norm_num)

theorem relatednessScore_nonneg (a b : String) (ci fi : List String) :
    0 ≤ relatednessScore a b ci fi := by
  simp only [relatednessScore]
  exact le_min
    (add_nonneg (add_nonneg (dirProximityScore_nonneg a b) (importStemScore_nonneg ci b))
      (sharedExternalScore_nonneg ci fi)) zero_le_one

theorem relatednessScore_le_one (a b : String) (ci fi : List String) :
    relatednessScore a b ci fi ≤ 1 :=
  min_le_right _ _

theorem categoryFitScore_nonneg (re : String → String → Bool) (cat ff fd lang : String) :
    0 ≤ categoryFitScore re cat ff fd lang := by
  unfold categoryFitScore
  split <;> (try split_ifs) <;> norm_num

theorem categoryFitScore_le_one (re : String → String → Bool) (cat ff fd lang : String) :
    categoryFitScore re cat ff fd lang ≤ 1 := by
  unfold categoryFitScore
  split <;> (try split_ifs) <;> norm_num

theorem severityMatchScore_nonneg (cat : String) (q : ℚ) : 0 ≤ severityMatchScore cat q :=
  le_max_left _ _

theorem severityMatchScore_le_one (cat : String) (q : ℚ) : severityMatchScore cat q ≤ 1 := by
  simp only [severityMatchScore]
  have h : 0 ≤ |(categorySeverity cat : ℚ) - q| * 0.25 := mul_nonneg (abs_nonneg _) (by norm_num)
  refine max_le (by norm_num) (by linarith)

theorem mem_insertByScore {π ι : Type} {c x : Candidate π ι} {l : List (Candidate π ι)} :
    x ∈ insertByScore c l ↔ x = c ∨ x ∈ l := by
  induction l with
  | nil => simp [insertByScore]
  | cons d ds ih =>
    by_cases h : c.score < d.score
    · simp only [insertByScore, if_pos h, List.mem_cons, ih]
      tauto
    · simp only [insertByScore, if_neg h, List.mem_cons]

theorem mem_sortByScoreDesc {π ι : Type} {x : Candidate π ι} {l : List (Candidate π ι)} :
    x ∈ sortByScoreDesc l ↔ x ∈ l := by
  induction l with
  | nil => simp [sortByScoreDesc]
  | cons c cs ih => simp [sortByScoreDesc, mem_insertByScore, ih]

/-- Every candidate produced by the collection loops carries exactly the
composite score `relScore * 0.4 + catScore * 0.35 + sevScore * 0.25` computed
from its own file, parsed representation and template. -/
theorem mem_candidatesOf_score {π ι : Type} {fs : FS} {files : List String} {fix : FixEvent}
    {options : Option ℚ} {templates : List (STemplate π ι)} {adapter : SAdapter π}
    {re : String → String → Bool} {c : Candidate π ι}
    (hc : c ∈ candidatesOf fs files fix options templates adapter re) :
    c.score =
      relatednessScore c.file fix.file (adapter.extractImports c.parsed)
        (fixedImportsOf fs fix adapter) * 0.4
      + categoryFitScore re c.template.category fix.file fix.description adapter.name * 0.35
      + severityMatchScore c.template.category (options.getD 3) * 0.25 := by
  simp only [candidatesOf] at hc
  obtain ⟨fp, _hfp, hc1⟩ := List.mem_flatMap.mp hc
  cases hread : fsRead fs fp with
  | none => simp only [hread] at hc1; simp at hc1
  | some src =>
    simp only [hread] at hc1
    cases hparse : adapter.parseFile src fp with
    | none => simp only [hparse] at hc1; simp at hc1
    | some parsed =>
      simp only [hparse] at hc1
      obtain ⟨tmpl, _htmpl, hc2⟩ := List.mem_flatMap.mp hc1
      cases hpts : tmpl.findInjectionPoints parsed fp with
      | none => simp only [hpts] at hc2; simp at hc2
      | some points =>
        simp only [hpts] at hc2
        obtain ⟨pt, _hpt, hceq⟩ := List.mem_map.mp hc2
        subst hceq
        rfl

/-- C2: every candidate ranked by `selectInjectionPoints` carries the
composite score `0.40·relatedness + 0.35·categoryFit + 0.25·severityFit`;
each of the three terms lies in [0, 1]; the severity-fit term equals
`max(0, 1 − 0.25·|templateSeverity − requestedSeverity|)` where the template
severity comes from the static category→severity map (security = 5,
concurrency = 4, logic = 2, unknown categories defaulting to 3). -/
theorem selectInjectionPoints_score_formula {π ι : Type} (fs : FS) (files : List String)
    (fix : FixEvent) (options : Option ℚ) (templates : List (STemplate π ι))
    (adapter : SAdapter π) (re : String → String → Bool) (c : Candidate π ι)
    (hc : c ∈ selectInjectionPoints fs files fix options templates adapter re) :
    (c.score =
      relatednessScore c.file fix.file (adapter.extractImports c.parsed)
        (fixedImportsOf fs fix adapter) * 0.4
      + categoryFitScore re c.template.category fix.file fix.description adapter.name * 0.35
      + severityMatchScore c.template.category (options.getD 3) * 0.25) ∧
    (0 ≤ relatednessScore c.file fix.file (adapter.extractImports c.parsed)
        (fixedImportsOf fs fix adapter) ∧
      relatednessScore c.file fix.file (adapter.extractImports c.parsed)
        (fixedImportsOf fs fix adapter) ≤ 1) ∧
    (0 ≤ categoryFitScore re c.template.category fix.file fix.description adapter.name ∧
      categoryFitScore re c.template.category fix.file fix.description adapter.name ≤ 1) ∧
    (0 ≤ severityMatchScore c.template.category (options.getD 3) ∧
      severityMatchScore c.template.category (options.getD 3) ≤ 1) ∧
    severityMatchScore c.template.category (options.getD 3) =
      max 0 (1 - |(categorySeverity c.template.category : ℚ) - options.getD 3| * 0.25) ∧
    categorySeverity "security" = 5 ∧
    categorySeverity "concurrency" = 4 ∧
    categorySeverity "logic" = 2 ∧
    (∀ cat : String,
      cat ∉ ["async", "react", "null-safety", "logic", "error-handling", "concurrency",
        "resource", "indentation", "correctness", "security", "database", "event-loop"] →
      categorySeverity cat = 3) := by
  have hmem : c ∈ candidatesOf fs files fix options templates adapter re := by
    rw [selectInjectionPoints, mem_sortByScoreDesc] at hc
    exact hc
  refine ⟨mem_candidatesOf_score hmem,
    ⟨relatednessScore_nonneg _ _ _ _, relatednessScore_le_one _ _ _ _⟩,
    ⟨categoryFitScore_nonneg _ _ _ _ _, categoryFitScore_le_one _ _ _ _ _⟩,
    ⟨severityMatchScore_nonneg _ _, severityMatchScore_le_one _ _⟩,
    rfl, rfl, rfl, rfl, ?_⟩
  intro cat hcat
  simp only [List.mem_cons, List.not_mem_nil, or_false] at hcat
  push_neg at hcat
  obtain ⟨h1, h2, h3, h4, h5, h6, h7, h8, h9, h10, h11, h12⟩ := hcat
  simp [categorySeverity, h1, h2, h3, h4, h5, h6, h7, h8, h9, h10, h11, h12]

/-- Concrete setup for the C2 witness: a trivial adapter and one `logic`
template that finds a single injection point in the one candidate file. -/
def adapterW : SAdapter Unit :=
  { name := "javascript", parseFile := fun _ _ => some (), extractImports := fun _ => [] }

/-- Template used by the C2 witness. -/
def tmplW : STemplate Unit Unit :=
  { category := "logic", findInjectionPoints := fun _ _ => some [()] }

/-- File system used by the C2 witness. -/
def fsW : FS := [("a.js", "const a = 1;"), ("b.js", "const b = 2;")]

/-- Fix event used by the C2 witness. -/
def fixW : FixEvent := { file := "a.js", description := "fix a" }

/-- Regex oracle used by the C2 witness (every test fails). -/
def reW : String → String → Bool := fun _ _ => false

/-- The single candidate that the C2 witness run produces: same directory as
the fix (relatedness 0.4), category `logic` (fit 0.5), severity distance 1
(fit 0.75), so score 0.4·0.4 + 0.5·0.35 + 0.75·0.25 = 209/400. -/
def candW : Candidate Unit Unit :=
  { file := "b.js", template := tmplW, injectionPoint := ()
    score :=
      relatednessScore "b.js" fixW.file (adapterW.extractImports ())
        (fixedImportsOf fsW fixW adapterW) * 0.4
      + categoryFitScore reW tmplW.category fixW.file fixW.description adapterW.name * 0.35
      + severityMatchScore tmplW.category ((none : Option ℚ).getD 3) * 0.25
    parsed := (), originalCode := "const b = 2;" }

/-- Witness for C2: the score formula evaluated on the concrete run. -/
theorem selectInjectionPoints_score_formula_witness :
    candW.score =
      relatednessScore candW.file fixW.file (adapterW.extractImports candW.parsed)
        (fixedImportsOf fsW fixW adapterW) * 0.4
      + categoryFitScore reW candW.template.category fixW.file fixW.description adapterW.name * 0.35
      + severityMatchScore candW.template.category ((none : Option ℚ).getD 3) * 0.25 := by
  have h : selectInjectionPoints fsW ["b.js"] fixW none [tmplW] adapterW reW = [candW] := rfl
  exact (selectInjectionPoints_score_formula fsW ["b.js"] fixW none [tmplW] adapterW reW candW
    (by rw [h]; exact List.Mem.head [])).1

/-! ## Determinism and tie stability of the ranking (C7) -/

theorem pairwise_insertByScore {π ι : Type} {c : Candidate π ι} {l : List (Candidate π ι)}
    (h : l.Pairwise (fun a b => b.score ≤ a.score)) :
    (insertByScore c l).Pairwise (fun a b => b.score ≤ a.score) := by
  induction l with
  | nil => simp [insertByScore]
  | cons d ds ih =>
    rw [List.pairwise_cons] at h
    by_cases hlt : c.score < d.score
    · rw [insertByScore, if_pos hlt, List.pairwise_cons]
      refine ⟨?_, ih h.2⟩
      intro x hx
      rcases mem_insertByScore.mp hx with rfl | hxds
      · exact le_of_lt hlt
      · exact h.1 x hxds
    · rw [insertByScore, if_neg hlt, List.pairwise_cons]
      refine ⟨?_, List.pairwise_cons.mpr h⟩
      intro x hx
      rcases List.mem_cons.mp hx with rfl | hxds
      · exact le_of_not_lt hlt
      · exact le_trans (h.1 x hxds) (le_of_not_lt hlt)

theorem pairwise_sortByScoreDesc {π ι : Type} (l : List (Candidate π ι)) :
    (sortByScoreDesc l).Pairwise (fun a b => b.score ≤ a.score) := by
  induction l with
  | nil => simp [sortByScoreDesc]
  | cons c cs ih => exact pairwise_insertByScore ih

theorem filter_insertByScore {π ι : Type} (s : ℚ) (c : Candidate π ι)
    (l : List (Candidate π ι)) :
    (insertByScore c l).filter (fun d => decide (d.score = s)) =
      if c.score = s then c :: l.filter (fun d => decide (d.score = s))
      else l.filter (fun d => decide (d.score = s)) := by
  induction l with
  | nil =>
    rw [insertByScore]
    by_cases hcs : c.score = s <;> simp [hcs]
  | cons d ds ih =>
    by_cases hlt : c.score < d.score
    · rw [insertByScore, if_pos hlt, List.filter_cons, List.filter_cons]
      by_cases hcs : c.score = s
      · have hds : ¬(d.score = s) := fun h => absurd (hcs ▸ h ▸ hlt) (lt_irrefl _)
        simp [hcs, hds, ih]
      · simp [hcs, ih]
    · rw [insertByScore, if_neg hlt, List.filter_cons]
      by_cases hcs : c.score = s <;> simp [hcs, List.filter_cons]

theorem filter_sortByScoreDesc {π ι : Type} (s : ℚ) (l : List (Candidate π ι)) :
    (sortByScoreDesc l).filter (fun d => decide (d.score = s)) =
      l.filter (fun d => decide (d.score = s)) := by
  induction l with
  | nil => rfl
  | cons c cs ih =>
    rw [sortByScoreDesc, filter_insertByScore, List.filter_cons, ih]
    by_cases hcs : c.score = s <;> simp [hcs]

/-- C7: ranking is deterministic and its tie order is the discovery order.
The whole selection pipeline is a pure function of its inputs (the embedding
exhibits no hidden state or randomness), so two runs on identical inputs
return identical lists; the ranked list is sorted descending by score; and
for every score value, the candidates holding that score appear in exactly
their insertion (discovery) order from the collection loops — the sort is the
stable descending sort that ECMA-262 prescribes for
`candidates.sort((a, b) => b.score - a.score)`. -/
theorem selectInjectionPoints_deterministic_and_stable {π ι : Type} (fs : FS)
    (files : List String) (fix : FixEvent) (options : Option ℚ)
    (templates : List (STemplate π ι)) (adapter : SAdapter π)
    (re : String → String → Bool) :
    selectInjectionPoints fs files fix options templates adapter re =
      selectInjectionPoints fs files fix options templates adapter re ∧
    (selectInjectionPoints fs files fix options templates adapter re).Pairwise
      (fun a b => b.score ≤ a.score) ∧
    (∀ s : ℚ,
      (selectInjectionPoints fs files fix options templates adapter re).filter
        (fun c => decide (c.score = s)) =
      (candidatesOf fs files fix options templates adapter re).filter
        (fun c => decide (c.score = s))) :=
  ⟨rfl, pairwise_sortByScoreDesc _, fun s => filter_sortByScoreDesc s _⟩

/-! ## Diversity of the two-pass selection (C3) -/

theorem diversityPass_prefix {π ι : Type} (ratio : Nat) (l : List (Nat × Candidate π ι)) :
    ∀ acc, ∃ ext, diversityPass ratio l acc = acc ++ ext := by
  induction l with
  | nil => intro acc; exact ⟨[], by simp [diversityPass]⟩
  | cons ic rest ih =>
    intro acc
    by_cases h1 : ratio ≤ acc.length
    · exact ⟨[], by simp [diversityPass, if_pos h1]⟩
    · by_cases h2 : acc.any (fun jc => jc.2.file == ic.2.file) = true
      · obtain ⟨ext, hext⟩ := ih acc
        exact ⟨ext, by rw [diversityPass, if_neg h1, if_pos h2, hext]⟩
      · obtain ⟨ext, hext⟩ := ih (acc ++ [ic])
        refine ⟨[ic] ++ ext, ?_⟩
        rw [diversityPass, if_neg h1, if_neg h2, hext, List.append_assoc]

theorem diversityPass_pairwise {π ι : Type} (ratio : Nat) (l : List (Nat × Candidate π ι)) :
    ∀ acc, acc.Pairwise (fun a b => a.2.file ≠ b.2.file) →
    (diversityPass ratio l acc).Pairwise (fun a b => a.2.file ≠ b.2.file) := by
  induction l with
  | nil => intro acc h; simpa [diversityPass] using h
  | cons ic rest ih =>
    intro acc h
    by_cases h1 : ratio ≤ acc.length
    · rw [diversityPass, if_pos h1]; exact h
    · by_cases h2 : acc.any (fun jc => jc.2.file == ic.2.file) = true
      · rw [diversityPass, if_neg h1, if_pos h2]; exact ih acc h
      · rw [diversityPass, if_neg h1, if_neg h2]
        refine ih (acc ++ [ic]) ?_
        rw [List.pairwise_append]
        refine ⟨h, by simp, ?_⟩
        intro a ha b hb
        rcases List.mem_singleton.mp hb with rfl
        intro hfeq
        exact h2 (List.any_eq_true.mpr ⟨a, ha, by simp [hfeq]⟩)

theorem diversityPass_length_le {π ι : Type} (ratio : Nat) (l : List (Nat × Candidate π ι)) :
    ∀ acc, acc.length ≤ ratio → (diversityPass ratio l acc).length ≤ ratio := by
  induction l with
  | nil => intro acc h; simpa [diversityPass] using h
  | cons ic rest ih =>
    intro acc h
    by_cases h1 : ratio ≤ acc.length
    · rw [diversityPass, if_pos h1]; exact h
    · by_cases h2 : acc.any (fun jc => jc.2.file == ic.2.file) = true
      · rw [diversityPass, if_neg h1, if_pos h2]; exact ih acc h
      · rw [diversityPass, if_neg h1, if_neg h2]
        refine ih (acc ++ [ic]) ?_
        have := lt_of_not_le h1
        simp only [List.length_append, List.length_singleton]
        omega

theorem diversityPass_exhausts {π ι : Type} (ratio : Nat) (l : List (Nat × Candidate π ι)) :
    ∀ acc, (diversityPass ratio l acc).length < ratio →
    ∀ ic ∈ l, ic.2.file ∈ (diversityPass ratio l acc).map (fun jc => jc.2.file) := by
  induction l with
  | nil => intro acc _ ic hic; simp at hic
  | cons jc0 rest ih =>
    intro acc hlen ic hic
    by_cases h1 : ratio ≤ acc.length
    · rw [diversityPass, if_pos h1] at hlen
      exact absurd h1 (not_le.mpr hlen)
    · by_cases h2 : acc.any (fun jc => jc.2.file == jc0.2.file) = true
      · rw [diversityPass, if_neg h1, if_pos h2] at hlen ⊢
        rcases List.mem_cons.mp hic with rfl | hicrest
        · obtain ⟨x, hxacc, hxeq⟩ := List.any_eq_true.mp h2
          obtain ⟨ext, hext⟩ := diversityPass_prefix ratio rest acc
          rw [hext, List.map_append]
          exact List.mem_append_left _
            (List.mem_map.mpr ⟨x, hxacc, by simpa using hxeq⟩)
        · exact ih acc hlen ic hicrest
      · rw [diversityPass, if_neg h1, if_neg h2] at hlen ⊢
        rcases List.mem_cons.mp hic with rfl | hicrest
        · obtain ⟨ext, hext⟩ := diversityPass_prefix ratio rest (acc ++ [ic])
          rw [hext, List.map_append, List.map_append]
          exact List.mem_append_left _
            (List.mem_append_right _ (by simp))
        · exact ih (acc ++ [jc0]) hlen ic hicrest

theorem fillPass_of_full {π ι : Type} (ratio : Nat) (l sel : List (Nat × Candidate π ι))
    (h : ratio ≤ sel.length) : fillPass ratio l sel = sel := by
  cases l with
  | nil => rfl
  | cons ic rest => rw [fillPass, if_pos h]

/-- C3: whenever the requested count `ratio` does not exceed the number of
distinct files occurring in the ranked candidate list, the selection made by
`injectBugs` (diversity pass, then fill pass) never selects the same file
twice: the diversity pass alone fills all `ratio` slots with pairwise
distinct files, and the fill pass adds nothing. -/
theorem injectBugs_selection_diversity {π ι : Type} (ranked : List (Candidate π ι))
    (ratio : Nat) (h : ratio ≤ ((ranked.map (fun c => c.file)).dedup).length) :
    (selectTopCandidates ranked ratio).Pairwise (fun a b => a.file ≠ b.file) := by
  have hmap : ranked.map (fun c => c.file) = ranked.enum.map (fun ic => ic.2.file) := by
    conv_lhs => rw [← List.enum_map_snd ranked]
    rw [List.map_map]
    rfl
  have hpair : (diversityPass ratio ranked.enum
      ([] : List (Nat × Candidate π ι))).Pairwise (fun a b => a.2.file ≠ b.2.file) :=
    diversityPass_pairwise ratio ranked.enum [] (by simp)
  have hge : ratio ≤ (diversityPass ratio ranked.enum ([] : List (Nat × Candidate π ι))).length := by
    by_contra hlt
    push_neg at hlt
    have hexh := diversityPass_exhausts ratio ranked.enum [] hlt
    have hsub : (ranked.enum.map (fun ic => ic.2.file)).dedup ⊆
        (diversityPass ratio ranked.enum []).map (fun jc => jc.2.file) := by
      intro f hf
      rw [List.mem_dedup] at hf
      obtain ⟨ic, hic, rfl⟩ := List.mem_map.mp hf
      exact hexh ic hic
    have hnodup : ((diversityPass ratio ranked.enum
        ([] : List (Nat × Candidate π ι))).map (fun jc => jc.2.file)).Nodup := by
      rw [List.Nodup, List.pairwise_map]
      exact hpair
    have hlen2 := (List.Nodup.subperm (List.nodup_dedup _) hsub).length_le
    rw [List.length_map] at hlen2
    rw [hmap] at h
    omega
  simp only [selectTopCandidates]
  rw [fillPass_of_full ratio _ _ hge, List.pairwise_map]
  exact hpair

/-- First concrete candidate for the C3 witness. -/
def candA : Candidate Unit Unit :=
  { file := "a.js", template := tmplW, injectionPoint := (), score := 1
    parsed := (), originalCode := "" }

/-- Second concrete candidate for the C3 witness (a different file). -/
def candB : Candidate Unit Unit :=
  { file := "b.js", template := tmplW, injectionPoint := (), score := 1
    parsed := (), originalCode := "" }

/-- Witness for C3: two ranked candidates in two distinct files, ratio 2. -/
theorem injectBugs_selection_diversity_witness :
    (selectTopCandidates [candA, candB] 2).Pairwise (fun a b => a.file ≠ b.file) :=
  injectBugs_selection_diversity [candA, candB] 2 (by decide)

/-! ## Scoring when the fixed file fails to parse (C8) -/

theorem sharedExternalScore_fixed_nil (ci : List String) : sharedExternalScore ci [] = 0 := by
  simp only [sharedExternalScore, List.filter_nil]
  have hfil : ci.filter (fun i => !(startsWithDot i) && List.contains [] i) = [] := by
    simp [List.contains]
  rw [hfil]
  simp only [List.length_nil, Nat.cast_zero, zero_mul]
  norm_num [min_def]

/-- C8 (amended): when parsing the fixed file throws (so the fixed-import
list degrades to `[]`), every candidate is still scored, and its relatedness
term reduces to the directory-proximity contribution plus the
candidate-import stem bonus (0.4 when some candidate import ends with the
fixed file's basename stem); only the shared-external-imports contribution is
forced to zero.  Relatedness is not directory-proximity-only: the stem bonus
survives because it uses the fixed file's path, not its imports. -/
theorem selectInjectionPoints_parse_failure_scoring {π ι : Type} (fs : FS)
    (files : List String) (fix : FixEvent) (options : Option ℚ)
    (templates : List (STemplate π ι)) (adapter : SAdapter π)
    (re : String → String → Bool)
    (hfail : fixedImportsOf fs fix adapter = []) (c : Candidate π ι)
    (hc : c ∈ selectInjectionPoints fs files fix options templates adapter re) :
    c.score =
      min (dirProximityScore c.file fix.file
        + importStemScore (adapter.extractImports c.parsed) fix.file) 1 * 0.4
      + categoryFitScore re c.template.category fix.file fix.description adapter.name * 0.35
      + severityMatchScore c.template.category (options.getD 3) * 0.25 := by
  have hmem : c ∈ candidatesOf fs files fix options templates adapter re := by
    rw [selectInjectionPoints, mem_sortByScoreDesc] at hc
    exact hc
  rw [mem_candidatesOf_score hmem, hfail]
  simp only [relatednessScore, sharedExternalScore_fixed_nil, add_zero]

/-- Adapter for the C8 counterexample: parsing the fixed file
`/a/x/target.js` throws; every other file parses to an import list
containing `./lib/target`. -/
def adapterC8 : SAdapter (List String) :=
  { name := "javascript"
    parseFile := fun _src filename =>
      if filename = "/a/x/target.js" then none else some ["./lib/target"]
    extractImports := fun p => p }

/-- Template for the C8 counterexample. -/
def tmplC8 : STemplate (List String) Unit :=
  { category := "logic", findInjectionPoints := fun _ _ => some [()] }

/-- File system for the C8 counterexample. -/
def fsC8 : FS := [("/a/x/target.js", "broken source"), ("/c/y/cand.js", "cand source")]

/-- Fix event for the C8 counterexample: the fixed file is the one whose
parse throws. -/
def fixC8 : FixEvent := { file := "/a/x/target.js", description := "fix desc" }

/-- Regex oracle for the C8 counterexample (every test fails). -/
def reC8 : String → String → Bool := fun _ _ => false

/-- The candidate the C8 counterexample run produces. -/
def candC8 : Candidate (List String) Unit :=
  { file := "/c/y/cand.js", template := tmplC8, injectionPoint := ()
    score :=
      relatednessScore "/c/y/cand.js" fixC8.file
        (adapterC8.extractImports ["./lib/target"]) (fixedImportsOf fsC8 fixC8 adapterC8) * 0.4
      + categoryFitScore reC8 tmplC8.category fixC8.file fixC8.description adapterC8.name * 0.35
      + severityMatchScore tmplC8.category ((none : Option ℚ).getD 3) * 0.25
    parsed := ["./lib/target"], originalCode := "cand source" }

theorem severityMatchScore_logic_three : severityMatchScore "logic" 3 = 0.75 := by
  have h : ((categorySeverity "logic" : ℕ) : ℚ) = 2 := by
    rw [show categorySeverity "logic" = 2 from rfl]
    norm_num
  have habs : |(2 : ℚ) - 3| = 1 := by
    rw [show (2 : ℚ) - 3 = -1 by norm_num, abs_neg, abs_one]
  simp only [severityMatchScore, h, habs]
  norm_num [max_def]

theorem relatednessScoreC8_eval :
    relatednessScore "/c/y/cand.js" "/a/x/target.js" ["./lib/target"] [] = 0.4 := by
  have h1 : dirProximityScore "/c/y/cand.js" "/a/x/target.js" = 0 := rfl
  have h2 : importStemScore ["./lib/target"] "/a/x/target.js" = 0.4 := rfl
  simp only [relatednessScore, h1, h2, sharedExternalScore_fixed_nil, add_zero, zero_add]
  norm_num [min_def]

/-- Counterexample for C8: on a run where the fixed file fails to parse, the
single ranked candidate sits in an unrelated directory (directory proximity
0), yet its relatedness is 0.4 — the candidate-import stem bonus still
applies — so its composite score differs from what directory-proximity-only
scoring would give. -/
theorem selectInjectionPoints_parse_failure_counterexample :
    adapterC8.parseFile "broken source" "/a/x/target.js" = none ∧
    fixedImportsOf fsC8 fixC8 adapterC8 = [] ∧
    dirProximityScore "/c/y/cand.js" "/a/x/target.js" = 0 ∧
    relatednessScore "/c/y/cand.js" "/a/x/target.js" ["./lib/target"] [] = 0.4 ∧
    (0.4 : ℚ) ≠ 0 ∧
    (selectInjectionPoints fsC8 ["/c/y/cand.js"] fixC8 none [tmplC8] adapterC8 reC8).map
      (fun c => c.score) = [209/400] ∧
    (209/400 : ℚ) ≠
      0 * 0.4 + categoryFitScore reC8 "logic" fixC8.file fixC8.description "javascript" * 0.35
        + severityMatchScore "logic" 3 * 0.25 := by
  refine ⟨rfl, rfl, rfl, relatednessScoreC8_eval, by norm_num, ?_, ?_⟩
  · have hsel : selectInjectionPoints fsC8 ["/c/y/cand.js"] fixC8 none [tmplC8] adapterC8 reC8
        = [candC8] := rfl
    rw [hsel]
    have hcat : categoryFitScore reC8 tmplC8.category fixC8.file fixC8.description
        adapterC8.name = 0.5 := rfl
    have hscore : candC8.score = 209/400 := by
      have hcat2 : categoryFitScore reC8 "logic" "/a/x/target.js" fixC8.description
          adapterC8.name = 0.5 := rfl
      simp only [candC8, show tmplC8.category = "logic" from rfl,
        show fixC8.file = "/a/x/target.js" from rfl,
        show ((none : Option ℚ).getD 3) = 3 from rfl,
        show fixedImportsOf fsC8 fixC8 adapterC8 = [] from rfl,
        show adapterC8.extractImports ["./lib/target"] = ["./lib/target"] from rfl,
        relatednessScoreC8_eval, hcat2, severityMatchScore_logic_three]
      norm_num
    simp [hscore]
  · have hcat : categoryFitScore reC8 "logic" fixC8.file fixC8.description "javascript"
        = 0.5 := rfl
    rw [hcat, severityMatchScore_logic_three]
    norm_num

/-- Witness for the amended C8 at the concrete failing-parse run. -/
theorem selectInjectionPoints_parse_failure_scoring_witness :
    candC8.score =
      min (dirProximityScore candC8.file fixC8.file
        + importStemScore (adapterC8.extractImports candC8.parsed) fixC8.file) 1 * 0.4
      + categoryFitScore reC8 candC8.template.category fixC8.file fixC8.description
          adapterC8.name * 0.35
      + severityMatchScore candC8.template.category ((none : Option ℚ).getD 3) * 0.25 := by
  have h : selectInjectionPoints fsC8 ["/c/y/cand.js"] fixC8 none [tmplC8] adapterC8 reC8
      = [candC8] := rfl
  exact selectInjectionPoints_parse_failure_scoring fsC8 ["/c/y/cand.js"] fixC8 none [tmplC8]
    adapterC8 reC8 rfl candC8 (by rw [h]; exact List.Mem.head [])

/-! ## Line-based parse/generate round trip
(src/utils/regex-parser.js `parseLines` / `generateFromLines`, the pair the
Python and Go adapters delegate their `parseFile` / `generateCode` to.
Source text is modelled as a list of characters.) -/

/-- Line-indexed structure returned by regex-parser.js `parseLines`: the
source split on newline characters, with the original source retained. -/
structure ParsedLines where
  lines : List (List Char)
  source : List Char
deriving Repr, DecidableEq

/-- Models `parseLines`: split the source on the newline character. -/
def parseLines (source : List Char) : ParsedLines :=
  { lines := source.splitOn '\n', source := source }

/-- Models `generateFromLines`: rejoin the lines with newline characters. -/
def generateFromLines (p : ParsedLines) : List Char :=
  [ '\n' ].intercalate p.lines

/-- Round trip of the line-based representation shared by the Python and Go
adapters: for every source, rejoining the split lines reproduces the source
exactly.  (The JavaScript adapter's `generateCode` delegates to the external
Babel generator and is not modelled here.) -/
theorem generateFromLines_parseLines (source : List Char) :
    generateFromLines (parseLines source) = source :=
  List.intercalate_splitOn source '\n'

end Hydra
